import Mathlib

/-!
Verification of the agent-context log-ingestion subsystem.

Shallow embedding of the TypeScript sources:
  * `agentModel` (computeUsagePercent, computeRiskLevel, createAgent,
    flattenAgents, computeSessionSummary, createSession),
  * `JsonlParser` (parseLine, isValidEntry, isValidAgentShape,
    evictOldestSessions),
  * `StateStore` (setState / computeHash),
  * `FilePoller` (the body of poll),
  * `CopilotSessionReader` (extractSubagentCallsFromResponse,
    processKind2, processKind1).

Modelling conventions:
  * JavaScript numbers are embedded as exact rationals plus explicit
    NaN / +Infinity / -Infinity constructors (`JSNum`); the code under
    verification only compares, divides and takes min of numbers, and
    every claim concerns exact values, so no floating-point rounding is
    modelled.
  * JSON values (the output of JSON.parse) are embedded as the inductive
    `JVal`; property access `o[key]` is `JVal.get`, which returns `none`
    (i.e. undefined) for missing keys and for non-object receivers.
  * JavaScript `Map` and `Set` (insertion ordered, set-replaces-in-place)
    are embedded as association lists with `assocSet` / `assocGet` and
    plain lists respectively.
  * String comparison `<` is Lean's lexicographic order on characters;
    the log timestamps compared by the code are ASCII ISO-8601 strings,
    for which this agrees with JS UTF-16 code-unit order.
-/

/-! ## JavaScript numbers -/

/-- A JavaScript number: an exact finite value, NaN, or a signed infinity. -/
inductive JSNum where
  | num (q : ℚ)
  | nan
  | inf
  | ninf
deriving DecidableEq, Repr

/-- JS `a > b` on numbers (false whenever either side is NaN). -/
def jsGt : JSNum → JSNum → Bool
  | .num a, .num b => decide (b < a)
  | .nan, _ => false
  | _, .nan => false
  | .inf, .inf => false
  | .inf, _ => true
  | _, .inf => false
  | .ninf, _ => false
  | .num _, .ninf => true

/-- JS `a >= b` on numbers (false whenever either side is NaN). -/
def jsGe : JSNum → JSNum → Bool
  | .num a, .num b => decide (b ≤ a)
  | .nan, _ => false
  | _, .nan => false
  | .inf, _ => true
  | _, .inf => false
  | .ninf, .ninf => true
  | .ninf, _ => false
  | .num _, .ninf => true

/-- JS strict equality `a === b` on numbers: NaN is equal to nothing,
including itself. -/
def jsStrictEqNum : JSNum → JSNum → Bool
  | .num a, .num b => decide (a = b)
  | .inf, .inf => true
  | .ninf, .ninf => true
  | _, _ => false

/-! ## JSON values -/

/-- A JSON value as produced by `JSON.parse`, except that numeric leaves
are general JS numbers so that functions that are also called on
non-parsed data (such as `createAgent`, which the tests call directly)
can receive non-finite inputs. -/
inductive JVal where
  | null
  | bool (b : Bool)
  | num (n : JSNum)
  | str (s : String)
  | arr (items : List JVal)
  | obj (fields : List (String × JVal))

/-- Association-list lookup (first binding wins), the model of reading a
property from a JS object literal. -/
def assocGet {α : Type} : List (String × α) → String → Option α
  | [], _ => none
  | (k, v) :: rest, key => if k = key then some v else assocGet rest key

/-- Association-list update with JS `Map.set` semantics: an existing key
is updated in place (keeping its position), a new key is appended. -/
def assocSet {α : Type} : List (String × α) → String → α → List (String × α)
  | [], key, v => [(key, v)]
  | (k, w) :: rest, key, v =>
    if k = key then (k, v) :: rest else (k, w) :: assocSet rest key v

/-- JS property access `o[key]`: `none` models `undefined`.  Non-object
receivers (including arrays, whose non-index properties the code never
reads) yield `undefined`. -/
def JVal.get : JVal → String → Option JVal
  | .obj fields, key => assocGet fields key
  | _, _ => none

/-- The JS test `typeof v === 'object' && v !== null`: true exactly for
objects and arrays (`typeof null` is `'object'` but the sources always
pair the typeof test with a null test). -/
def JVal.isObjectLike : JVal → Bool
  | .obj _ => true
  | .arr _ => true
  | _ => false

/-- `v === s` for a string literal `s`, applied to a possibly-undefined
property value. -/
def optIsStr : Option JVal → String → Bool
  | some (.str t), s => t = s
  | _, _ => false

/-- `v === true` for a possibly-undefined property value. -/
def optIsTrue : Option JVal → Bool
  | some (.bool true) => true
  | _ => false

/-- `typeof v === 'string' ? v : dflt` for a possibly-undefined property. -/
def optStrOr : Option JVal → String → String
  | some (.str t), _ => t
  | _, d => d

/-- `typeof v === 'number' ? v : dflt` for a possibly-undefined property. -/
def optNumOr : Option JVal → JSNum → JSNum
  | some (.num n), _ => n
  | _, d => d

/-- JS `Number(s)` on a string, restricted to the optionally-signed
integer literals (after trimming) that actually occur in the logs; other
strings coerce to NaN.  (Decimal/exponent literals are not modelled; no
claim depends on them.) -/
def jsStringToNumber (s : String) : JSNum :=
  let t := s.trim
  if t = "" then .num 0
  else match t.toInt? with
    | some i => .num (i : ℚ)
    | none => .nan

/-- JS `Number(v)` on a possibly-undefined value (`Number(undefined)` is
NaN, `Number(null)` is 0, booleans coerce to 0/1, objects to NaN; the
array cases, which JS routes through string conversion, are modelled as
NaN and are unreachable from the call sites). -/
def jsToNumber : Option JVal → JSNum
  | none => .nan
  | some (.num n) => n
  | some .null => .num 0
  | some (.bool b) => .num (if b then 1 else 0)
  | some (.str s) => jsStringToNumber s
  | some (.arr _) => .nan
  | some (.obj _) => .nan

/-- JS truthiness of a possibly-undefined value. -/
def jsTruthy : Option JVal → Bool
  | none => false
  | some .null => false
  | some (.bool b) => b
  | some (.num (.num q)) => decide (q ≠ 0)
  | some (.num .nan) => false
  | some (.num _) => true
  | some (.str s) => decide (s ≠ "")
  | some (.arr _) => true
  | some (.obj _) => true

/-- JS `String(v ?? '')` as used on `agentId`/`label` (string inputs pass
through; nullish inputs give `''`; the remaining coercions, never hit by
validated input, are approximated). -/
def jsToStringOrEmpty : Option JVal → String
  | none => ""
  | some .null => ""
  | some (.str s) => s
  | some (.bool b) => if b then "true" else "false"
  | some (.num (.num q)) => toString q
  | some (.num .nan) => "NaN"
  | some (.num .inf) => "Infinity"
  | some (.num .ninf) => "-Infinity"
  | some (.arr _) => ""
  | some (.obj _) => "[object Object]"

/-! ## agentModel: domain types -/

inductive RiskLevel where
  | normal
  | warning
  | critical
deriving DecidableEq, Repr

inductive AgentStatus where
  | running
  | waiting
  | done
  | error
deriving DecidableEq, Repr

inductive SessionStatus where
  | active
  | idle
  | completed
  | error
deriving DecidableEq, Repr

inductive Role where
  | main
  | subagent
deriving DecidableEq, Repr

structure ContextBreakdown where
  systemPrompt : ℚ
  userMessages : ℚ
  toolResults : ℚ
  fileContext : ℚ
  other : ℚ
deriving DecidableEq, Repr

structure ContextSnapshot where
  usedTokens : ℚ
  maxTokens : ℚ
  usagePercent : ℚ
  breakdown : Option ContextBreakdown
deriving DecidableEq, Repr

structure SessionSummary where
  hottestAgentId : String
  hottestAgentLabel : String
  hottestUsagePercent : ℚ
  totalAgents : ℕ
  warningAgentCount : ℕ
  criticalAgentCount : ℕ
deriving DecidableEq, Repr

/-- The domain agent tree (`Agent` in agentModel.ts).  It must be an
inductive rather than a structure because children are owned
recursively. -/
inductive Agent where
  | mk (agentId : String) (role : Role) (label : String)
       (parentAgentId : Option String) (contextUsage : ContextSnapshot)
       (children : List Agent) (riskLevel : RiskLevel)
       (status : AgentStatus) (lastActivityAt : String)

def Agent.agentId : Agent → String
  | .mk i _ _ _ _ _ _ _ _ => i

def Agent.role : Agent → Role
  | .mk _ r _ _ _ _ _ _ _ => r

def Agent.label : Agent → String
  | .mk _ _ l _ _ _ _ _ _ => l

def Agent.parentAgentId : Agent → Option String
  | .mk _ _ _ p _ _ _ _ _ => p

def Agent.contextUsage : Agent → ContextSnapshot
  | .mk _ _ _ _ c _ _ _ _ => c

def Agent.children : Agent → List Agent
  | .mk _ _ _ _ _ cs _ _ _ => cs

def Agent.riskLevel : Agent → RiskLevel
  | .mk _ _ _ _ _ _ r _ _ => r

def Agent.status : Agent → AgentStatus
  | .mk _ _ _ _ _ _ _ s _ => s

def Agent.lastActivityAt : Agent → String
  | .mk _ _ _ _ _ _ _ _ t => t

structure AgentSession where
  sessionId : String
  startedAt : String
  lastUpdatedAt : String
  agents : List Agent
  sessionSummary : SessionSummary
  status : SessionStatus

structure Thresholds where
  warningPercent : ℚ
  criticalPercent : ℚ
deriving DecidableEq, Repr

def DEFAULT_THRESHOLDS : Thresholds := ⟨70, 85⟩

def MAX_AGENT_DEPTH : ℕ := 10

/-! ## agentModel: functions -/

/-- `computeUsagePercent(used, max)`.  Its only call site passes values
already coerced through `toFiniteNumber`, so it is embedded over the
finite rationals. -/
def computeUsagePercent (used max : ℚ) : ℚ :=
  if max ≤ 0 then 0
  else min (used / max * 100) 100

/-- `computeRiskLevel(usagePercent, thresholds)`. -/
def computeRiskLevel (usagePercent : ℚ) (thresholds : Thresholds) : RiskLevel :=
  if thresholds.criticalPercent ≤ usagePercent then .critical
  else if thresholds.warningPercent ≤ usagePercent then .warning
  else .normal

/-- `flattenAgents(agents, depth)`: children of each agent are flattened
one level deeper; past the depth cap nothing is emitted. -/
def flattenAgents (agents : List Agent) (depth : ℕ) : List Agent :=
  if MAX_AGENT_DEPTH < depth then []
  else
    match agents with
    | [] => []
    | a :: rest =>
      (a :: (if 0 < a.children.length then flattenAgents a.children (depth + 1) else []))
        ++ flattenAgents rest depth
termination_by (MAX_AGENT_DEPTH + 1 - depth, agents.length)
decreasing_by
  · apply Prod.Lex.left
    omega
  · apply Prod.Lex.right'
    · omega
    · simp

/-- `computeSessionSummary(agents)`: hottest agent (first wins ties),
total / warning / critical counts, all over the depth-capped flattening. -/
def computeSessionSummary (agents : List Agent) : SessionSummary :=
  let all := flattenAgents agents 0
  match all with
  | [] =>
    { hottestAgentId := "", hottestAgentLabel := "", hottestUsagePercent := 0,
      totalAgents := 0, warningAgentCount := 0, criticalAgentCount := 0 }
  | a0 :: _ =>
    let hottest := all.foldl
      (fun h a => if h.contextUsage.usagePercent < a.contextUsage.usagePercent then a else h) a0
    { hottestAgentId := hottest.agentId
      hottestAgentLabel := hottest.label
      hottestUsagePercent := hottest.contextUsage.usagePercent
      totalAgents := all.length
      warningAgentCount := all.countP (fun a => a.riskLevel == .warning)
      criticalAgentCount := all.countP (fun a => a.riskLevel == .critical) }

/-- `toFiniteNumber(value)`: `Number(value)` if finite, else 0. -/
def toFiniteNumber (value : Option JVal) : ℚ :=
  match jsToNumber value with
  | .num q => q
  | _ => 0

/-- `sanitizeStatus(value)`: keep a recognised status string, default to
running. -/
def sanitizeStatus (value : Option JVal) : AgentStatus :=
  if optIsStr value "running" then .running
  else if optIsStr value "waiting" then .waiting
  else if optIsStr value "done" then .done
  else if optIsStr value "error" then .error
  else .running

/-- The `raw.context?.breakdown ? {...} : undefined` construction. -/
def buildBreakdown (context : Option JVal) : Option ContextBreakdown :=
  match context with
  | none => none
  | some ctx =>
    let bd := ctx.get "breakdown"
    if jsTruthy bd then
      match bd with
      | some b =>
        some { systemPrompt := toFiniteNumber (b.get "systemPrompt")
               userMessages := toFiniteNumber (b.get "userMessages")
               toolResults := toFiniteNumber (b.get "toolResults")
               fileContext := toFiniteNumber (b.get "fileContext")
               other := toFiniteNumber (b.get "other") }
      | none => none
    else none

/-- `createAgent(raw, ts, thresholds, depth)`.  The raw agent is the JSON
value the parser validated (the TS code casts rather than converts, so
every field read is a dynamic property access).  Children are built only
below `MAX_AGENT_DEPTH`.  A present, non-null, non-array `children`
field makes the source's `(raw.children ?? []).map` throw a TypeError —
and the validator does not rule this out, since `isValidAgentShape`
skips rather than rejects a non-array `children`.  `createAgentThrows`
below characterises exactly those inputs; this total function returns no
children there, and the `parseLine` embedding routes every entry through
`createSessionThrows` first, so no stored state ever depends on the
value this function takes on a throwing input. -/
def createAgent (raw : JVal) (ts : String) (thresholds : Thresholds) (depth : ℕ) : Agent :=
  let context := raw.get "context"
  let usedTokens := toFiniteNumber (context.bind (fun c => c.get "usedTokens"))
  let maxTokens := toFiniteNumber (context.bind (fun c => c.get "maxTokens"))
  let usagePercent := computeUsagePercent usedTokens maxTokens
  let riskLevel := computeRiskLevel usagePercent thresholds
  let breakdown := buildBreakdown context
  let children :=
    if depth < MAX_AGENT_DEPTH then
      (match raw.get "children" with
        | some (.arr cs) => cs
        | _ => []).map (fun c => createAgent c ts thresholds (depth + 1))
    else []
  .mk (jsToStringOrEmpty (raw.get "agentId"))
      (if optIsStr (raw.get "role") "subagent" then .subagent else .main)
      (jsToStringOrEmpty (raw.get "label"))
      (match raw.get "parentAgentId" with | some (.str s) => some s | _ => none)
      { usedTokens := usedTokens, maxTokens := maxTokens,
        usagePercent := usagePercent, breakdown := breakdown }
      children
      riskLevel
      (sanitizeStatus (raw.get "status"))
      ts
termination_by MAX_AGENT_DEPTH - depth
decreasing_by omega

/-- Whether the source `createAgent(raw, …, depth)` throws: its only
throw site is `(raw.children ?? []).map(…)`, evaluated only below the
depth cap; it throws exactly when `children` is present and neither
nullish nor an array, or, when `children` is an array, when building
some child throws one level deeper. -/
def createAgentThrows (raw : JVal) (depth : ℕ) : Bool :=
  if depth < MAX_AGENT_DEPTH then
    match raw.get "children" with
    | none => false
    | some .null => false
    | some (.arr cs) => cs.any (fun c => createAgentThrows c (depth + 1))
    | some _ => true
  else false
termination_by MAX_AGENT_DEPTH - depth
decreasing_by omega

/-- Whether the source `createSession(entry, …)` throws on a validated
entry: `entry.agents.map` itself cannot throw (validation guarantees an
array), so it throws exactly when building some top-level agent
throws. -/
def createSessionThrows (entry : JVal) : Bool :=
  (match entry.get "agents" with
    | some (.arr l) => l
    | _ => []).any (fun a => createAgentThrows a 0)

/-- `createSession(entry, thresholds)`.  `entry.agents` is an array for
every validated entry (the only way in: `isValidEntry` rejects a
non-array `agents` field). -/
def createSession (entry : JVal) (thresholds : Thresholds) : AgentSession :=
  let ts := optStrOr (entry.get "ts") ""
  let agents :=
    (match entry.get "agents" with
      | some (.arr l) => l
      | _ => []).map (fun a => createAgent a ts thresholds 0)
  let summary := computeSessionSummary agents
  let allAgents := flattenAgents agents 0
  let sessionStatus : SessionStatus :=
    if allAgents.all (fun a => a.status == .done) then .completed
    else if allAgents.any (fun a => a.status == .error) then .error
    else if allAgents.all (fun a => a.status == .waiting) then .idle
    else .active
  { sessionId := optStrOr (entry.get "sessionId") ""
    startedAt := ts
    lastUpdatedAt := ts
    agents := agents
    sessionSummary := summary
    status := sessionStatus }

/-! ## JsonlParser -/

def SUPPORTED_VERSION : ℚ := 1

def MAX_DEDUP_KEYS : ℕ := 10000

def MAX_SESSIONS : ℕ := 100

/-- The mutable fields of a `JsonlParser` instance (the logger performs
no state changes that matter here; `thresholds` is carried because
`createSession` consumes it). -/
structure ParserState where
  pendingPartialLine : String
  seenKeys : List String
  latestTsPerSession : List (String × String)
  sessions : List (String × AgentSession)
  malformedLineCount : ℕ
  thresholds : Thresholds

/-- One parsed input line: either `JSON.parse` threw, or it produced a
JSON value. -/
inductive ParsedLine where
  | malformedJson
  | value (v : JVal)

/-- `isValidAgentShape(obj, depth)`: depth gate first, then object
check, non-empty string `agentId`, object `context`, and recursive
validation of `children` when it is an array. -/
def isValidAgentShape (a : JVal) (depth : ℕ) : Bool :=
  if MAX_AGENT_DEPTH < depth then false
  else if !a.isObjectLike then false
  else
    match a.get "agentId" with
    | some (.str s) =>
      if s = "" then false
      else
        match a.get "context" with
        | some ctx =>
          if !ctx.isObjectLike then false
          else
            match a.get "children" with
            | some (.arr cs) => cs.all (fun c => isValidAgentShape c (depth + 1))
            | _ => true
        | none => false
    | _ => false
termination_by MAX_AGENT_DEPTH + 1 - depth
decreasing_by omega

/-- `isValidEntry(obj)`: object with numeric `v`, string `ts`, non-empty
string `sessionId`, array `agents` whose members all pass
`isValidAgentShape` at depth 0.  (The source increments the malformed
counter inside this method — exactly once per failing call — which the
embedding accounts for at the `parseLine` call site.) -/
def isValidEntry (v : JVal) : Bool :=
  if !v.isObjectLike then false
  else
    match v.get "v" with
    | some (.num _) =>
      match v.get "ts" with
      | some (.str _) =>
        match v.get "sessionId" with
        | some (.str sid) =>
          if sid = "" then false
          else
            match v.get "agents" with
            | some (.arr agents) => agents.all (fun a => isValidAgentShape a 0)
            | _ => false
        | _ => false
      | _ => false
    | _ => false

/-- Code-unit lexicographic comparison on character lists. -/
def charListLe : List Char → List Char → Bool
  | [], _ => true
  | _ :: _, [] => false
  | a :: as, b :: bs =>
    if a < b then true else if b < a then false else charListLe as bs

/-- The JS comparator `(a, b) => a.localeCompare(b)` sorted ascending,
modelled as code-unit lexicographic order on the strings. -/
def strLeB (a b : String) : Bool := charListLe a.data b.data

/-- The session-map eviction (`evictOldestSessions`): stable-sort the
entries ascending by `lastUpdatedAt` (JS `sort` with `localeCompare`),
remove the first `size - MAX_SESSIONS` from both `sessions` and
`latestTsPerSession`.  `seenKeys` is untouched. -/
def evictOldestSessions (st : ParserState) : ParserState :=
  let sorted := st.sessions.insertionSort
    (fun a b => strLeB a.2.lastUpdatedAt b.2.lastUpdatedAt = true)
  let toRemove := sorted.take (sorted.length - MAX_SESSIONS)
  let removedIds := toRemove.map Prod.fst
  { st with
    sessions := st.sessions.filter (fun e => !removedIds.contains e.1)
    latestTsPerSession :=
      st.latestTsPerSession.filter (fun e => !removedIds.contains e.1) }

/-- `parseLine`: malformed JSON and malformed shape bump the counter;
then version gate, dedup (with half-eviction of the dedup set),
ordering gate (which keeps the just-added dedup key), wholesale session
rebuild with sticky `startedAt`, and session-map eviction.  When the
rebuild would throw (`createSessionThrows`), the result is the state the
parser instance is left in after the exception unwinds: dedup key and
latest timestamp recorded, sessions untouched. -/
def parseLine (st : ParserState) (line : ParsedLine) : ParserState :=
  match line with
  | .malformedJson => { st with malformedLineCount := st.malformedLineCount + 1 }
  | .value parsed =>
    if !isValidEntry parsed then
      { st with malformedLineCount := st.malformedLineCount + 1 }
    else
      let entryV := optNumOr (parsed.get "v") .nan
      let sid := optStrOr (parsed.get "sessionId") ""
      let ts := optStrOr (parsed.get "ts") ""
      if jsGt entryV (.num SUPPORTED_VERSION) then st
      else
        let dedupKey := sid ++ ":" ++ ts
        if st.seenKeys.contains dedupKey then st
        else
          let seen1 := st.seenKeys ++ [dedupKey]
          let seen2 :=
            if MAX_DEDUP_KEYS < seen1.length then seen1.drop (MAX_DEDUP_KEYS / 2)
            else seen1
          let outOfOrder :=
            match assocGet st.latestTsPerSession sid with
            | some t => t ≠ "" && decide (ts < t)
            | none => false
          if outOfOrder then { st with seenKeys := seen2 }
          else if createSessionThrows parsed then
            -- The source's `createSession` call throws a TypeError here
            -- (non-array `children` on some agent).  The dedup-set and
            -- latest-timestamp mutations made above survive on the parser
            -- instance, the exception propagates out of `parseLine` (the
            -- poller's catch absorbs it), and no session is stored.
            { st with
              seenKeys := seen2
              latestTsPerSession := assocSet st.latestTsPerSession sid ts }
          else
            let session := createSession parsed st.thresholds
            let session' :=
              match assocGet st.sessions sid with
              | some existing => { session with startedAt := existing.startedAt }
              | none => session
            let sessions1 := assocSet st.sessions sid session'
            let st' := { st with
              seenKeys := seen2
              latestTsPerSession := assocSet st.latestTsPerSession sid ts
              sessions := sessions1 }
            if MAX_SESSIONS < sessions1.length then evictOldestSessions st' else st'

/-! ## StateStore -/

/-- The mutable fields of a `StateStore` instance. -/
structure StoreState where
  currentState : Option AgentSession
  disposed : Bool
  lastStateHash : String

def initialStoreState : StoreState :=
  { currentState := none, disposed := false, lastStateHash := "" }

/-- `JSON.stringify(session.sessionSummary)`.  Rational components are
rendered with Lean's (injective) numeral printer in place of the JS
float printer; string components are spliced without escaping, exactly
as injectively as `JSON.stringify` splices them. -/
def stringifySummary (s : SessionSummary) : String :=
  "\x7b\"hottestAgentId\":\"" ++ s.hottestAgentId ++
    "\",\"hottestAgentLabel\":\"" ++ s.hottestAgentLabel ++
    "\",\"hottestUsagePercent\":" ++ toString s.hottestUsagePercent ++
    ",\"totalAgents\":" ++ toString s.totalAgents ++
    ",\"warningAgentCount\":" ++ toString s.warningAgentCount ++
    ",\"criticalAgentCount\":" ++ toString s.criticalAgentCount ++ "\x7d"

/-- `StateStore.computeHash(session)`. -/
def computeHash (session : AgentSession) : String :=
  session.sessionId ++ ":" ++ session.lastUpdatedAt ++ ":" ++
    stringifySummary session.sessionSummary

/-- `StateStore.setState(session)`; the returned `Bool` records whether
the change event fired (the emitter fires at most once per call, at the
single `emitter.fire` site). -/
def setState (st : StoreState) (session : Option AgentSession) : StoreState × Bool :=
  if st.disposed then (st, false)
  else
    let newHash := match session with
      | some s => computeHash s
      | none => ""
    if newHash = st.lastStateHash then (st, false)
    else ({ st with lastStateHash := newHash, currentState := session }, true)

/-! ## FilePoller -/

def MAX_CHUNK_BYTES : ℕ := 10 * 1024 * 1024

/-- The observable outcome of one `FilePoller.poll()` body (the
busy-flag re-entrancy guard around it is orthogonal to the read-bounding
claim).  `read = some (start, len)` means `len` bytes were requested
starting at byte `start`; with the file unchanged during the poll the
positional `fh.read` returns exactly `len` bytes, and the source
advances the offset by that requested count. -/
structure PollResult where
  newOffset : ℕ
  resetFired : Bool
  missingFired : Bool
  read : Option (ℕ × ℕ)
deriving DecidableEq, Repr

/-- The body of `FilePoller.poll()`: stat (`none` = missing file),
truncation reset, no-change short-circuit, then a read capped at
`MAX_CHUNK_BYTES`. -/
def pollStep (fileOffset : ℕ) (statSize : Option ℕ) : PollResult :=
  match statSize with
  | none => { newOffset := fileOffset, resetFired := false, missingFired := true, read := none }
  | some size =>
    let offset1 := if size < fileOffset then 0 else fileOffset
    let didReset := decide (size < fileOffset)
    if size = offset1 then
      { newOffset := offset1, resetFired := didReset, missingFired := false, read := none }
    else
      let available := size - offset1
      let bytesToRead := min available MAX_CHUNK_BYTES
      { newOffset := offset1 + bytesToRead, resetFired := didReset,
        missingFired := false, read := some (offset1, bytesToRead) }

/-! ## CopilotSessionReader -/

structure PromptTokenDetail where
  category : String
  label : String
  percentageOfPrompt : JSNum
deriving DecidableEq, Repr

structure SubagentCall where
  toolCallId : String
  description : String
  modelName : String
  isComplete : Bool
  requestIndex : JSNum
  promptTokensAtTurn : JSNum
deriving DecidableEq, Repr

structure VscodeChatSession where
  sessionId : String
  fileName : String
  creationDate : JSNum
  modelName : String
  modelIdentifier : String
  maxInputTokens : JSNum
  maxOutputTokens : JSNum
  latestPromptTokens : JSNum
  latestCompletionTokens : JSNum
  promptTokenDetails : List PromptTokenDetail
  lastModifiedMs : ℚ
  turnCount : ℕ
  subagentCalls : List SubagentCall
deriving DecidableEq, Repr

/-- The per-file reconstruction state (`FileState` in the source);
`subagentRequestIndex` is the side index toolCallId → requestIndex used
for back-filling. -/
structure CopilotFileState where
  offset : ℕ
  pendingPartial : String
  session : Option VscodeChatSession
  subagentRequestIndex : List (String × JSNum)

/-- `extractSubagentCallsFromResponse(responseItems, requestIndex,
promptTokensAtTurn = 0)`: keep completed-shape `toolInvocationSerialized`
items whose `toolSpecificData.kind` is `'subagent'` and whose
`toolCallId` is a non-empty string. -/
def extractSubagentCallsFromResponse (responseItems : List JVal)
    (requestIndex : JSNum) (promptTokensAtTurn : JSNum := .num 0) :
    List SubagentCall :=
  responseItems.filterMap fun item =>
    if !item.isObjectLike then none
    else if !optIsStr (item.get "kind") "toolInvocationSerialized" then none
    else
      match item.get "toolSpecificData" with
      | some td =>
        if !td.isObjectLike then none
        else if !optIsStr (td.get "kind") "subagent" then none
        else
          let toolCallId := optStrOr (item.get "toolCallId") ""
          if toolCallId = "" then none
          else
            some { toolCallId := toolCallId
                   description := optStrOr (td.get "description") ""
                   modelName := optStrOr (td.get "modelName") ""
                   isComplete := optIsTrue (item.get "isComplete")
                   requestIndex := requestIndex
                   promptTokensAtTurn := promptTokensAtTurn }
      | none => none

/-- `processKind2(fileName, record, mtimeMs)` restricted to the per-file
state (the `sessions` map entry mirrors `state.session` on every path
that returns true).  A turn-append record keyed
`["requests", N, "response"]` merges newly revealed child calls by
`toolCallId` and records their turn index in the side index; the calls
enter with the default `promptTokensAtTurn = 0`. -/
def processKind2 (state : CopilotFileState) (record : JVal) (mtimeMs : ℚ) :
    CopilotFileState × Bool :=
  match state.session with
  | none => (state, false)
  | some session =>
    match record.get "k" with
    | some (.arr [k0, k1, k2]) =>
      if !(optIsStr (some k0) "requests" && optIsStr (some k2) "response") then
        (state, false)
      else
        match record.get "v" with
        | some (.arr items) =>
          let requestIndex : JSNum := optNumOr (some k1) (.num (-1))
          let newCalls := extractSubagentCallsFromResponse items requestIndex
          if newCalls.isEmpty then (state, false)
          else
            let idx' := newCalls.foldl
              (fun m c => assocSet m c.toolCallId requestIndex)
              state.subagentRequestIndex
            let callsMap := session.subagentCalls.foldl
              (fun m c => assocSet m c.toolCallId c) []
            let callsMap' := newCalls.foldl
              (fun m c => assocSet m c.toolCallId c) callsMap
            let session' := { session with
              subagentCalls := callsMap'.map Prod.snd
              lastModifiedMs := mtimeMs }
            ({ state with session := some session', subagentRequestIndex := idx' },
             true)
        | _ => (state, false)
    | _ => (state, false)

/-- `processKind1(fileName, record, mtimeMs)` restricted to the per-file
state.  A turn-result record keyed `["requests", N, "result"]` overwrites
the session's usage fields (last write wins), bumps the turn count and,
when `N ≥ 0` and the new prompt total is positive, back-fills
`promptTokensAtTurn` for every child call whose side-index entry is `N`.
(The source's `updatedAny` flag selects between two return points that
store the same session and return the same `true`.) -/
def processKind1 (state : CopilotFileState) (record : JVal) (mtimeMs : ℚ) :
    CopilotFileState × Bool :=
  match state.session with
  | none => (state, false)
  | some session =>
    match record.get "k" with
    | some (.arr [k0, k1, k2]) =>
      if !(optIsStr (some k0) "requests" && optIsStr (some k2) "result") then
        (state, false)
      else
        match record.get "v" with
        | some v =>
          if !v.isObjectLike then (state, false)
          else
            match v.get "usage" with
            | some usage =>
              if !usage.isObjectLike then (state, false)
              else
                let promptTokens := optNumOr (usage.get "promptTokens")
                  session.latestPromptTokens
                let completionTokens := optNumOr (usage.get "completionTokens")
                  session.latestCompletionTokens
                let promptTokenDetails :=
                  match usage.get "promptTokenDetails" with
                  | some (.arr ds) => ds.filterMap fun d =>
                      if d.isObjectLike then
                        some { category := optStrOr (d.get "category") ""
                               label := optStrOr (d.get "label") ""
                               percentageOfPrompt :=
                                 optNumOr (d.get "percentageOfPrompt") (.num 0) }
                      else none
                  | _ => []
                let requestIndex : JSNum := optNumOr (some k1) (.num (-1))
                let newCalls :=
                  if jsGe requestIndex (.num 0) && jsGt promptTokens (.num 0) then
                    session.subagentCalls.map fun call =>
                      match assocGet state.subagentRequestIndex call.toolCallId with
                      | some callReqIdx =>
                        if jsStrictEqNum callReqIdx requestIndex &&
                            !jsStrictEqNum call.promptTokensAtTurn promptTokens then
                          { call with promptTokensAtTurn := promptTokens }
                        else call
                      | none => call
                  else session.subagentCalls
                let session' := { session with
                  latestPromptTokens := promptTokens
                  latestCompletionTokens := completionTokens
                  promptTokenDetails := promptTokenDetails
                  lastModifiedMs := mtimeMs
                  turnCount := session.turnCount + 1
                  subagentCalls := newCalls }
                ({ state with session := some session' }, true)
            | none => (state, false)
        | none => (state, false)
    | _ => (state, false)

/-! ## Helper lemmas -/

theorem computeUsagePercent_le_100 (u m : ℚ) : computeUsagePercent u m ≤ 100 := by
  unfold computeUsagePercent
  split
  · norm_num
  · exact min_le_right _ _

theorem computeUsagePercent_nonneg (u m : ℚ) (hu : 0 ≤ u) :
    0 ≤ computeUsagePercent u m := by
  unfold computeUsagePercent
  split
  · exact le_refl 0
  · next hm =>
    apply le_min
    · have hm' : 0 < m := lt_of_not_ge (fun h => hm (by linarith))
      positivity
    · norm_num

theorem computeUsagePercent_of_nonpos (u m : ℚ) (hm : m ≤ 0) :
    computeUsagePercent u m = 0 := by
  unfold computeUsagePercent
  rw [if_pos hm]

/-- The contextUsage snapshot assembled by `createAgent`, in closed form. -/
theorem createAgent_contextUsage (raw : JVal) (ts : String) (th : Thresholds) (depth : ℕ) :
    (createAgent raw ts th depth).contextUsage =
      { usedTokens := toFiniteNumber ((raw.get "context").bind (fun c => c.get "usedTokens"))
        maxTokens := toFiniteNumber ((raw.get "context").bind (fun c => c.get "maxTokens"))
        usagePercent := computeUsagePercent
          (toFiniteNumber ((raw.get "context").bind (fun c => c.get "usedTokens")))
          (toFiniteNumber ((raw.get "context").bind (fun c => c.get "maxTokens")))
        breakdown := buildBreakdown (raw.get "context") } := by
  rw [createAgent]
  rfl

/-! ## Claim C1 -/

/-- A raw agent record with a finite negative `usedTokens` and a positive
`maxTokens`: `toFiniteNumber` keeps finite negatives. -/
def c1RawNegative : JVal := .obj
  [("agentId", .str "a"), ("role", .str "main"), ("label", .str "A"),
   ("status", .str "running"),
   ("context", .obj [("usedTokens", .num (.num (-50))),
                     ("maxTokens", .num (.num 100))])]

theorem c1RawNegative_usagePercent :
    (createAgent c1RawNegative "t" DEFAULT_THRESHOLDS 0).contextUsage.usagePercent = -50 := by
  rw [createAgent_contextUsage]
  have h1 : toFiniteNumber ((c1RawNegative.get "context").bind fun c => c.get "usedTokens") = -50 := rfl
  have h2 : toFiniteNumber ((c1RawNegative.get "context").bind fun c => c.get "maxTokens") = 100 := rfl
  show computeUsagePercent
      (toFiniteNumber ((c1RawNegative.get "context").bind fun c => c.get "usedTokens"))
      (toFiniteNumber ((c1RawNegative.get "context").bind fun c => c.get "maxTokens")) = -50
  rw [h1, h2]
  norm_num [computeUsagePercent, min_def]

/-- C1, counterexample: for the raw record with `usedTokens = -50`,
`maxTokens = 100`, `createAgent` computes `usagePercent = -50`, which is
not in `[0, 100]` — the claim that the result lies in `[0, 100]` for
*every* raw record, negative inputs included, is false (finite negative
inputs are not coerced to 0). -/
theorem c1_usagePercent_counterexample :
    ¬ (0 ≤ (createAgent c1RawNegative "t" DEFAULT_THRESHOLDS 0).contextUsage.usagePercent ∧
       (createAgent c1RawNegative "t" DEFAULT_THRESHOLDS 0).contextUsage.usagePercent ≤ 100) := by
  rw [c1RawNegative_usagePercent]
  norm_num

/-- C1, amended: for every raw agent record, the computed `usagePercent`
equals `computeUsagePercent` of the finite-or-zero coercions of
`usedTokens` and `maxTokens`; it is a (finite) rational that is always
at most 100; it is 0 whenever the coerced `maxTokens` is nonpositive;
it lies in `[0, 100]` whenever the coerced `usedTokens` is nonnegative —
in particular for all missing, non-finite or nonnegative inputs, since
non-finite and missing numeric inputs coerce to 0.  (A finite negative
`usedTokens` with positive `maxTokens` escapes the interval.) -/
theorem c1_usagePercent_bounds (raw : JVal) (ts : String) (th : Thresholds) (depth : ℕ) :
    ((createAgent raw ts th depth).contextUsage.usagePercent =
      computeUsagePercent
        (toFiniteNumber ((raw.get "context").bind (fun c => c.get "usedTokens")))
        (toFiniteNumber ((raw.get "context").bind (fun c => c.get "maxTokens")))) ∧
    ((createAgent raw ts th depth).contextUsage.usagePercent ≤ 100) ∧
    (toFiniteNumber ((raw.get "context").bind (fun c => c.get "maxTokens")) ≤ 0 →
      (createAgent raw ts th depth).contextUsage.usagePercent = 0) ∧
    (0 ≤ toFiniteNumber ((raw.get "context").bind (fun c => c.get "usedTokens")) →
      0 ≤ (createAgent raw ts th depth).contextUsage.usagePercent ∧
        (createAgent raw ts th depth).contextUsage.usagePercent ≤ 100) ∧
    (toFiniteNumber (some (.num .nan)) = 0 ∧ toFiniteNumber (some (.num .inf)) = 0 ∧
      toFiniteNumber (some (.num .ninf)) = 0 ∧ toFiniteNumber none = 0) := by
  rw [createAgent_contextUsage]
  refine ⟨rfl, computeUsagePercent_le_100 _ _, ?_, ?_, by decide⟩
  · intro hm
    exact computeUsagePercent_of_nonpos _ _ hm
  · intro hu
    exact ⟨computeUsagePercent_nonneg _ _ hu, computeUsagePercent_le_100 _ _⟩

/-- A well-formed raw record used to instantiate `c1_usagePercent_bounds`. -/
def c1RawOk : JVal := .obj
  [("agentId", .str "a"), ("role", .str "main"), ("label", .str "A"),
   ("status", .str "running"),
   ("context", .obj [("usedTokens", .num (.num 40)),
                     ("maxTokens", .num (.num 100))])]

theorem c1_usagePercent_bounds_witness :
    0 ≤ toFiniteNumber ((c1RawOk.get "context").bind (fun c => c.get "usedTokens")) ∧
    0 ≤ (createAgent c1RawOk "t" DEFAULT_THRESHOLDS 0).contextUsage.usagePercent ∧
    (createAgent c1RawOk "t" DEFAULT_THRESHOLDS 0).contextUsage.usagePercent ≤ 100 := by
  have h := (c1_usagePercent_bounds c1RawOk "t" DEFAULT_THRESHOLDS 0).2.2.2.1
  have hu : 0 ≤ toFiniteNumber ((c1RawOk.get "context").bind (fun c => c.get "usedTokens")) := by
    decide
  exact ⟨hu, (h hu).1, (h hu).2⟩

/-! ## Claim C2 -/

/-- C2: on every poll in which the file exists and its size exceeds the
stored offset, exactly `min (size - offset) MAX_CHUNK_BYTES` bytes are
requested starting at the stored offset and the offset advances by
exactly that count; and on every poll whatsoever, the number of bytes
read never exceeds `MAX_CHUNK_BYTES` (10 MB), however much the file has
grown. -/
theorem c2_poll_read_bounded :
    (∀ fileOffset size : ℕ, fileOffset < size →
      pollStep fileOffset (some size) =
        { newOffset := fileOffset + min (size - fileOffset) MAX_CHUNK_BYTES
          resetFired := false
          missingFired := false
          read := some (fileOffset, min (size - fileOffset) MAX_CHUNK_BYTES) }) ∧
    (∀ fileOffset statSize start len,
      (pollStep fileOffset statSize).read = some (start, len) → len ≤ MAX_CHUNK_BYTES) := by
  constructor
  · intro o s h
    have hlt : ¬ s < o := by omega
    have hne : s ≠ o := by omega
    simp only [pollStep, if_neg hlt, if_neg hne, decide_eq_false hlt]
  · intro o f start len h
    match f with
    | none => simp [pollStep] at h
    | some s =>
      simp only [pollStep] at h
      split at h
      all_goals split at h
      all_goals simp at h
      all_goals omega

theorem c2_poll_read_bounded_witness :
    pollStep 5 (some 100) =
      { newOffset := 100, resetFired := false, missingFired := false,
        read := some (5, 95) } ∧ 95 ≤ MAX_CHUNK_BYTES := by
  constructor
  · have h := c2_poll_read_bounded.1 5 100 (by decide)
    simpa [MAX_CHUNK_BYTES] using h
  · exact c2_poll_read_bounded.2 5 (some 100) 5 95 (by decide)

/-! ## Claim C4 -/

/-- The hash `setState` derives from its argument (the inline `session ?
computeHash(session) : ''` expression). -/
def hashOf : Option AgentSession → String
  | some s => computeHash s
  | none => ""

def c4Summary : SessionSummary :=
  { hottestAgentId := "a", hottestAgentLabel := "A", hottestUsagePercent := 50,
    totalAgents := 1, warningAgentCount := 0, criticalAgentCount := 0 }

/-- Two sessions with identical `sessionId`, `lastUpdatedAt` and
`sessionSummary` but different content (`status` differs). -/
def c4SessA : AgentSession :=
  { sessionId := "s1", startedAt := "t0", lastUpdatedAt := "t1", agents := [],
    sessionSummary := c4Summary, status := .active }

def c4SessB : AgentSession :=
  { sessionId := "s1", startedAt := "t0", lastUpdatedAt := "t1", agents := [],
    sessionSummary := c4Summary, status := .idle }

/-- C4, counterexample: the change-detection hash covers only
`sessionId`, `lastUpdatedAt` and the JSON of `sessionSummary`.  After
emitting `c4SessA`, delivering `c4SessB` — which differs in content
(its `status` field) — does not fire the event, so "fires if and only if
the new session differs in content from the previously emitted one" is
false: two sessions with different content are treated as equal. -/
theorem c4_content_equality_counterexample :
    (setState initialStoreState (some c4SessA)).2 = true ∧
    c4SessA ≠ c4SessB ∧
    (setState (setState initialStoreState (some c4SessA)).1 (some c4SessB)).2 = false := by
  refine ⟨rfl, ?_, rfl⟩
  intro hcontra
  exact absurd (congrArg AgentSession.status hcontra) (by decide)

/-- C4, amended: `setState` fires at most once per call, and fires if
and only if the derived hash — `sessionId`, `lastUpdatedAt` and the
JSON serialisation of `sessionSummary` — differs from the hash of the
previously accepted value; delivering the same input twice produces
exactly one emission; sessions that differ only in fields outside the
hash (such as `status`, `startedAt` or agent details) are treated as
equal even though their content differs. -/
theorem c4_setState_hash_semantics (st : StoreState) (s : Option AgentSession)
    (h : st.disposed = false) :
    ((setState st s).2 = true ↔ hashOf s ≠ st.lastStateHash) ∧
    ((setState st s).2 = false → (setState st s).1 = st) ∧
    ((setState (setState st s).1 s).2 = false) := by
  have hsem : ∀ (t : StoreState) (x : Option AgentSession), setState t x =
      if t.disposed then (t, false)
      else if hashOf x = t.lastStateHash then (t, false)
      else ({ t with lastStateHash := hashOf x, currentState := x }, true) := by
    intro t x
    cases x <;> rfl
  by_cases heq : hashOf s = st.lastStateHash
  · simp [hsem, h, heq]
  · simp [hsem, h, heq]

theorem c4_setState_hash_semantics_witness :
    initialStoreState.disposed = false ∧
    (setState (setState initialStoreState (some c4SessA)).1 (some c4SessA)).2 = false := by
  exact ⟨rfl, (c4_setState_hash_semantics initialStoreState (some c4SessA) rfl).2.2⟩

/-! ## Parser lemmas -/

/-- Field projections used by the parser on a validated entry. -/
def sidOf (v : JVal) : String := optStrOr (v.get "sessionId") ""

def tsOf (v : JVal) : String := optStrOr (v.get "ts") ""

/-- The dedup key `sessionId + ":" + timestamp` of a parsed record. -/
def dedupKeyOf (v : JVal) : String := sidOf v ++ ":" ++ tsOf v

/-- The version gate test of `parseLine`. -/
def versionTooNew (v : JVal) : Bool :=
  jsGt (optNumOr (v.get "v") .nan) (.num SUPPORTED_VERSION)

theorem not_string_lt_empty (s : String) : ¬ s < "" := by
  intro h
  rw [String.lt_iff_toList_lt] at h
  have h0 : ("" : String).toList = [] := rfl
  rw [h0] at h
  generalize s.toList = l at h
  cases h

theorem assocGet_assocSet_self {α : Type} (l : List (String × α)) (k : String) (v : α) :
    assocGet (assocSet l k v) k = some v := by
  induction l with
  | nil => simp [assocGet, assocSet]
  | cons e rest ih =>
    by_cases he : e.1 = k
    · simp [assocSet, assocGet, he]
    · simp [assocSet, assocGet, he, ih]

theorem assocSet_length_le {α : Type} (l : List (String × α)) (k : String) (v : α) :
    (assocSet l k v).length ≤ l.length + 1 := by
  induction l with
  | nil => simp [assocSet]
  | cons e rest ih =>
    by_cases he : e.1 = k
    · simp [assocSet, he]
    · simp only [assocSet, if_neg he, List.length_cons]
      omega

theorem assocSet_length_of_found {α : Type} (l : List (String × α)) (k : String) (v : α)
    (h : assocGet l k ≠ none) : (assocSet l k v).length = l.length := by
  induction l with
  | nil => simp [assocGet] at h
  | cons e rest ih =>
    by_cases he : e.1 = k
    · simp [assocSet, he]
    · simp only [assocGet, if_neg he] at h
      simp only [assocSet, if_neg he, List.length_cons, ih h]

theorem mem_seenEvicted (l : List String) (k : String) :
    k ∈ (if MAX_DEDUP_KEYS < (l ++ [k]).length
         then (l ++ [k]).drop (MAX_DEDUP_KEYS / 2) else l ++ [k]) := by
  split
  · next h =>
    rw [List.drop_append_of_le_length (by simp at h; omega)]
    exact List.mem_append_right _ (List.mem_singleton.mpr rfl)
  · exact List.mem_append_right _ (List.mem_singleton.mpr rfl)

/-- Dedup hit: a (structurally valid) line whose dedup key has been seen
leaves the whole parser state unchanged. -/
theorem parseLine_seen_noop (st : ParserState) (v : JVal)
    (hv : isValidEntry v = true)
    (hc : st.seenKeys.contains (dedupKeyOf v) = true) :
    parseLine st (.value v) = st := by
  unfold parseLine
  simp only [hv, Bool.not_true, Bool.false_eq_true, if_false]
  split
  · rfl
  · rw [dedupKeyOf, sidOf, tsOf] at hc
    simp only [hc, if_true]

/-- After any structurally valid, version-accepted line is processed,
its dedup key is in the dedup set (the half-eviction keeps the newest
keys, the just-added key among them). -/
theorem parseLine_mem_seenKeys (st : ParserState) (v : JVal)
    (hv : isValidEntry v = true)
    (hg : versionTooNew v = false) :
    (parseLine st (.value v)).seenKeys.contains (dedupKeyOf v) = true := by
  by_cases hc : st.seenKeys.contains (dedupKeyOf v) = true
  · rw [parseLine_seen_noop st v hv hc]
    exact hc
  · rw [Bool.not_eq_true] at hc
    rw [versionTooNew] at hg
    unfold parseLine
    simp only [hv, Bool.not_true, Bool.false_eq_true, if_false, hg]
    rw [dedupKeyOf, sidOf, tsOf] at hc ⊢
    simp only [hc, Bool.false_eq_true, if_false]
    have hmem := mem_seenEvicted st.seenKeys
      (optStrOr (v.get "sessionId") "" ++ ":" ++ optStrOr (v.get "ts") "")
    split
    · simpa using hmem
    · split
      · simpa using hmem
      · split
        · simpa [evictOldestSessions] using hmem
        · simpa using hmem

/-- Version gate: a structurally valid line with `v > SUPPORTED_VERSION`
is rejected wholesale, leaving the state unchanged. -/
theorem parseLine_version_noop (st : ParserState) (v : JVal)
    (hv : isValidEntry v = true) (hg : versionTooNew v = true) :
    parseLine st (.value v) = st := by
  unfold parseLine
  rw [versionTooNew] at hg
  simp only [hv, Bool.not_true, Bool.false_eq_true, if_false, hg, if_true]

/-- A structurally invalid line only bumps the malformed counter. -/
theorem parseLine_invalid (st : ParserState) (v : JVal)
    (hv : isValidEntry v = false) :
    parseLine st (.value v) =
      { st with malformedLineCount := st.malformedLineCount + 1 } := by
  unfold parseLine
  simp [hv]

/-- Out-of-order path: the dedup key is retained (with possible
half-eviction) but nothing else changes. -/
theorem parseLine_out_of_order (st : ParserState) (v : JVal) (t : String)
    (hv : isValidEntry v = true) (hg : versionTooNew v = false)
    (hc : st.seenKeys.contains (dedupKeyOf v) = false)
    (hget : assocGet st.latestTsPerSession (sidOf v) = some t)
    (hlt : tsOf v < t) :
    parseLine st (.value v) =
      { st with seenKeys :=
          if MAX_DEDUP_KEYS < (st.seenKeys ++ [dedupKeyOf v]).length
          then (st.seenKeys ++ [dedupKeyOf v]).drop (MAX_DEDUP_KEYS / 2)
          else st.seenKeys ++ [dedupKeyOf v] } := by
  have hne : t ≠ "" := by
    intro h
    exact not_string_lt_empty (tsOf v) (h ▸ hlt)
  unfold parseLine
  rw [versionTooNew] at hg
  rw [dedupKeyOf, sidOf, tsOf] at hc ⊢
  rw [sidOf] at hget
  rw [tsOf] at hlt
  simp only [hv, Bool.not_true, Bool.false_eq_true, if_false, hg, hc, hget, hne,
    ne_eq, not_false_eq_true, hlt, decide_True, Bool.and_self, if_true]

/-- Accept path (for an entry on which the session rebuild does not
throw): the dedup key is recorded, the per-session latest timestamp is
advanced, and the wholesale-rebuilt session (with sticky `startedAt`)
is stored, then the session-map cap is enforced. -/
theorem parseLine_accept (st : ParserState) (v : JVal)
    (hv : isValidEntry v = true) (hg : versionTooNew v = false)
    (hc : st.seenKeys.contains (dedupKeyOf v) = false)
    (hord : (match assocGet st.latestTsPerSession (sidOf v) with
      | some t => t ≠ "" && decide (tsOf v < t)
      | none => false) = false)
    (hthrow : createSessionThrows v = false) :
    parseLine st (.value v) =
      (let session := createSession v st.thresholds
       let session' := match assocGet st.sessions (sidOf v) with
         | some existing => { session with startedAt := existing.startedAt }
         | none => session
       let sessions1 := assocSet st.sessions (sidOf v) session'
       let st' := { st with
         seenKeys := if MAX_DEDUP_KEYS < (st.seenKeys ++ [dedupKeyOf v]).length
           then (st.seenKeys ++ [dedupKeyOf v]).drop (MAX_DEDUP_KEYS / 2)
           else st.seenKeys ++ [dedupKeyOf v]
         latestTsPerSession := assocSet st.latestTsPerSession (sidOf v) (tsOf v)
         sessions := sessions1 }
       if MAX_SESSIONS < sessions1.length then evictOldestSessions st' else st') := by
  unfold parseLine
  rw [versionTooNew] at hg
  rw [dedupKeyOf, sidOf, tsOf] at hc ⊢
  rw [sidOf, tsOf] at hord
  simp only [hv, Bool.not_true, Bool.false_eq_true, if_false, hg, hc, hord, hthrow]

/-- Throwing path: when the session rebuild throws (non-array `children`
on some agent of a line that nevertheless passed validation), the dedup
key and the advanced latest timestamp survive on the parser instance,
but no session is stored. -/
theorem parseLine_throwing (st : ParserState) (v : JVal)
    (hv : isValidEntry v = true) (hg : versionTooNew v = false)
    (hc : st.seenKeys.contains (dedupKeyOf v) = false)
    (hord : (match assocGet st.latestTsPerSession (sidOf v) with
      | some t => t ≠ "" && decide (tsOf v < t)
      | none => false) = false)
    (hthrow : createSessionThrows v = true) :
    parseLine st (.value v) =
      { st with
        seenKeys := if MAX_DEDUP_KEYS < (st.seenKeys ++ [dedupKeyOf v]).length
          then (st.seenKeys ++ [dedupKeyOf v]).drop (MAX_DEDUP_KEYS / 2)
          else st.seenKeys ++ [dedupKeyOf v]
        latestTsPerSession := assocSet st.latestTsPerSession (sidOf v) (tsOf v) } := by
  unfold parseLine
  rw [versionTooNew] at hg
  rw [dedupKeyOf, sidOf, tsOf] at hc ⊢
  rw [sidOf, tsOf] at hord
  simp only [hv, Bool.not_true, Bool.false_eq_true, if_false, hg, hc, hord, hthrow,
    if_true]

/-! ## Claim C5 -/

/-- C5: a second structurally valid line bearing an already-seen
`(sessionId, timestamp)` dedup key is discarded silently — the whole
parser state, its sessions map included, is unchanged — and feeding the
same valid line twice produces the same state as feeding it once
(exactly one session update). -/
theorem c5_dedup_idempotent :
    (∀ (st : ParserState) (v : JVal), isValidEntry v = true →
      st.seenKeys.contains (dedupKeyOf v) = true →
      parseLine st (.value v) = st) ∧
    (∀ (st : ParserState) (v : JVal), isValidEntry v = true →
      parseLine (parseLine st (.value v)) (.value v) = parseLine st (.value v)) := by
  refine ⟨parseLine_seen_noop, ?_⟩
  intro st v hv
  by_cases hg : versionTooNew v = true
  · have hst : parseLine st (.value v) = st := parseLine_version_noop st v hv hg
    rw [hst]
    exact hst
  · rw [Bool.not_eq_true] at hg
    exact parseLine_seen_noop _ v hv (parseLine_mem_seenKeys st v hv hg)

/-- The parser state right after construction / `reset()`. -/
def initialParserState : ParserState :=
  { pendingPartialLine := "", seenKeys := [], latestTsPerSession := [],
    sessions := [], malformedLineCount := 0, thresholds := DEFAULT_THRESHOLDS }

/-- A minimal structurally valid entry (`agents` may validly be empty). -/
def emptyAgentsEntry : JVal := .obj
  [("v", .num (.num 1)), ("ts", .str "t1"), ("sessionId", .str "s1"),
   ("agents", .arr [])]

theorem c5_dedup_idempotent_witness :
    isValidEntry emptyAgentsEntry = true ∧
    parseLine (parseLine initialParserState (.value emptyAgentsEntry)) (.value emptyAgentsEntry) =
      parseLine initialParserState (.value emptyAgentsEntry) :=
  ⟨by decide, c5_dedup_idempotent.2 initialParserState emptyAgentsEntry (by decide)⟩

/-! ## Claim C6 -/

theorem createSession_lastUpdatedAt (entry : JVal) (th : Thresholds) :
    (createSession entry th).lastUpdatedAt = tsOf entry := rfl

/-- C6: a line whose timestamp is lexicographically below the session's
last-seen timestamp is discarded without touching the sessions map or
the per-session latest timestamps (this holds on every `parseLine` path
once the ordering hypothesis is given); a line that completes the
rebuild (does not throw) stores a session whose `lastUpdatedAt` is
exactly the line's timestamp, advancing the per-session latest
timestamp to it; and a line whose rebuild throws stores no session at
all — so the stored session always reflects the chronologically latest
accepted (completed) line. -/
theorem c6_out_of_order_discard :
    (∀ (st : ParserState) (v : JVal) (t : String),
      assocGet st.latestTsPerSession (sidOf v) = some t → tsOf v < t →
      (parseLine st (.value v)).sessions = st.sessions ∧
      (parseLine st (.value v)).latestTsPerSession = st.latestTsPerSession) ∧
    (∀ (st : ParserState) (v : JVal), isValidEntry v = true →
      versionTooNew v = false →
      st.seenKeys.contains (dedupKeyOf v) = false →
      (match assocGet st.latestTsPerSession (sidOf v) with
        | some t => t ≠ "" && decide (tsOf v < t)
        | none => false) = false →
      createSessionThrows v = false →
      st.sessions.length < MAX_SESSIONS →
      assocGet (parseLine st (.value v)).latestTsPerSession (sidOf v) = some (tsOf v) ∧
      ∃ sess, assocGet (parseLine st (.value v)).sessions (sidOf v) = some sess ∧
        sess.lastUpdatedAt = tsOf v) ∧
    (∀ (st : ParserState) (v : JVal), isValidEntry v = true →
      versionTooNew v = false →
      st.seenKeys.contains (dedupKeyOf v) = false →
      (match assocGet st.latestTsPerSession (sidOf v) with
        | some t => t ≠ "" && decide (tsOf v < t)
        | none => false) = false →
      createSessionThrows v = true →
      (parseLine st (.value v)).sessions = st.sessions ∧
      (parseLine st (.value v)).latestTsPerSession =
        assocSet st.latestTsPerSession (sidOf v) (tsOf v)) := by
  refine ⟨?_, ?_, ?_⟩
  · intro st v t hget hlt
    by_cases hv : isValidEntry v = true
    · by_cases hg : versionTooNew v = true
      · rw [parseLine_version_noop st v hv hg]
        exact ⟨rfl, rfl⟩
      · rw [Bool.not_eq_true] at hg
        by_cases hc : st.seenKeys.contains (dedupKeyOf v) = true
        · rw [parseLine_seen_noop st v hv hc]
          exact ⟨rfl, rfl⟩
        · rw [Bool.not_eq_true] at hc
          rw [parseLine_out_of_order st v t hv hg hc hget hlt]
          exact ⟨rfl, rfl⟩
    · rw [Bool.not_eq_true] at hv
      rw [parseLine_invalid st v hv]
      exact ⟨rfl, rfl⟩
  · intro st v hv hg hc hord hthrow hlen
    rw [parseLine_accept st v hv hg hc hord hthrow]
    have hlen1 : ¬ MAX_SESSIONS <
        (assocSet st.sessions (sidOf v)
          (match assocGet st.sessions (sidOf v) with
            | some existing => { createSession v st.thresholds with startedAt := existing.startedAt }
            | none => createSession v st.thresholds)).length := by
      have := assocSet_length_le st.sessions (sidOf v)
        (match assocGet st.sessions (sidOf v) with
          | some existing => { createSession v st.thresholds with startedAt := existing.startedAt }
          | none => createSession v st.thresholds)
      omega
    simp only [hlen1, if_false]
    refine ⟨assocGet_assocSet_self _ _ _, ?_⟩
    refine ⟨_, assocGet_assocSet_self _ _ _, ?_⟩
    cases hex : assocGet st.sessions (sidOf v) with
    | none => simp [createSession_lastUpdatedAt]
    | some existing => simp [createSession_lastUpdatedAt]
  · intro st v hv hg hc hord hthrow
    rw [parseLine_throwing st v hv hg hc hord hthrow]
    exact ⟨rfl, rfl⟩

def c6State : ParserState :=
  { initialParserState with latestTsPerSession := [("s1", "t5")] }

/-- An agent that passes `isValidAgentShape` (its non-array `children`
is merely skipped by validation) yet makes `createAgent` throw in the
source (`(raw.children ?? []).map` on a plain object). -/
def throwingAgent : JVal := .obj
  [("agentId", .str "a1"), ("context", .obj []), ("children", .obj [])]

/-- A structurally valid entry on which the session rebuild throws. -/
def throwingEntry : JVal := .obj
  [("v", .num (.num 1)), ("ts", .str "t9"), ("sessionId", .str "s1"),
   ("agents", .arr [throwingAgent])]

theorem throwingEntry_valid : isValidEntry throwingEntry = true := by
  have h : isValidEntry throwingEntry = (isValidAgentShape throwingAgent 0 && true) := rfl
  rw [h, isValidAgentShape]
  decide

theorem throwingEntry_throws : createSessionThrows throwingEntry = true := by
  have h : createSessionThrows throwingEntry =
      (createAgentThrows throwingAgent 0 || false) := rfl
  rw [h, createAgentThrows]
  decide

theorem c6_out_of_order_discard_witness :
    (assocGet c6State.latestTsPerSession (sidOf emptyAgentsEntry) = some "t5" ∧
      tsOf emptyAgentsEntry < "t5" ∧
      (parseLine c6State (.value emptyAgentsEntry)).sessions = c6State.sessions ∧
      (parseLine c6State (.value emptyAgentsEntry)).latestTsPerSession =
        c6State.latestTsPerSession) ∧
    (assocGet (parseLine initialParserState (.value emptyAgentsEntry)).latestTsPerSession
        (sidOf emptyAgentsEntry) = some (tsOf emptyAgentsEntry) ∧
      ∃ sess, assocGet (parseLine initialParserState (.value emptyAgentsEntry)).sessions
        (sidOf emptyAgentsEntry) = some sess ∧
        sess.lastUpdatedAt = tsOf emptyAgentsEntry) ∧
    (isValidEntry throwingEntry = true ∧ createSessionThrows throwingEntry = true ∧
      (parseLine initialParserState (.value throwingEntry)).sessions =
        initialParserState.sessions ∧
      (parseLine initialParserState (.value throwingEntry)).latestTsPerSession =
        assocSet initialParserState.latestTsPerSession (sidOf throwingEntry)
          (tsOf throwingEntry)) := by
  have hlt : tsOf emptyAgentsEntry < "t5" := by
    rw [String.lt_iff_toList_lt]
    decide
  have hv3 : isValidEntry throwingEntry = true := throwingEntry_valid
  have hth3 : createSessionThrows throwingEntry = true := throwingEntry_throws
  have h1 := c6_out_of_order_discard.1 c6State emptyAgentsEntry "t5" (by decide) hlt
  have h2 := c6_out_of_order_discard.2.1 initialParserState emptyAgentsEntry
    (by decide) (by decide) (by decide) (by decide) (by decide) (by decide)
  have h3 := c6_out_of_order_discard.2.2 initialParserState throwingEntry
    hv3 (by decide) (by decide) (by decide) hth3
  exact ⟨⟨by decide, hlt, h1.1, h1.2⟩, h2, ⟨hv3, hth3, h3.1, h3.2⟩⟩

/-! ## Claim C9 -/

/-- C9: when an accepted record whose rebuild completes (does not
throw) updates an already-present sessionId, the stored replacement
equals the wholesale rebuild `createSession record thresholds` with
exactly one field overridden: `startedAt`, carried forward from the
prior session. -/
theorem c9_startedAt_sticky (st : ParserState) (v : JVal) (ex : AgentSession)
    (hv : isValidEntry v = true) (hg : versionTooNew v = false)
    (hc : st.seenKeys.contains (dedupKeyOf v) = false)
    (hord : (match assocGet st.latestTsPerSession (sidOf v) with
      | some t => t ≠ "" && decide (tsOf v < t)
      | none => false) = false)
    (hthrow : createSessionThrows v = false)
    (hex : assocGet st.sessions (sidOf v) = some ex)
    (hlen : st.sessions.length ≤ MAX_SESSIONS) :
    assocGet (parseLine st (.value v)).sessions (sidOf v) =
      some { createSession v st.thresholds with startedAt := ex.startedAt } := by
  rw [parseLine_accept st v hv hg hc hord hthrow]
  simp only [hex]
  have hfound : assocGet st.sessions (sidOf v) ≠ none := by
    rw [hex]
    simp
  have hlen1 := assocSet_length_of_found st.sessions (sidOf v)
    { createSession v st.thresholds with startedAt := ex.startedAt } hfound
  have hnoev : ¬ MAX_SESSIONS <
      (assocSet st.sessions (sidOf v)
        { createSession v st.thresholds with startedAt := ex.startedAt }).length := by
    omega
  simp only [hnoev, if_false]
  exact assocGet_assocSet_self _ _ _

def c9PriorSummary : SessionSummary :=
  { hottestAgentId := "", hottestAgentLabel := "", hottestUsagePercent := 0,
    totalAgents := 0, warningAgentCount := 0, criticalAgentCount := 0 }

def c9Prior : AgentSession :=
  { sessionId := "s1", startedAt := "t0", lastUpdatedAt := "t0", agents := [],
    sessionSummary := c9PriorSummary, status := .active }

def c9State : ParserState :=
  { initialParserState with sessions := [("s1", c9Prior)] }

theorem c9_startedAt_sticky_witness :
    assocGet c9State.sessions (sidOf emptyAgentsEntry) = some c9Prior ∧
    assocGet (parseLine c9State (.value emptyAgentsEntry)).sessions (sidOf emptyAgentsEntry) =
      some { createSession emptyAgentsEntry c9State.thresholds with startedAt := c9Prior.startedAt } :=
  ⟨rfl, c9_startedAt_sticky c9State emptyAgentsEntry c9Prior (by decide) (by decide)
    (by decide) (by decide) (by decide) rfl (by decide)⟩

/-! ## Claim C10 -/

theorem assocGet_filter_removed {α : Type} (l : List (String × α)) (ids : List String)
    (id : String) (h : ids.contains id = true) :
    assocGet (l.filter (fun e => !ids.contains e.1)) id = none := by
  induction l with
  | nil => rfl
  | cons e rest ih =>
    rw [List.filter_cons]
    by_cases he : e.1 = id
    · rw [he, h]
      simpa using ih
    · split
      · simp only [assocGet, if_neg he]
        exact ih
      · exact ih

theorem assocGet_filter_kept {α : Type} (l : List (String × α)) (ids : List String)
    (id : String) (h : ids.contains id = false) :
    assocGet (l.filter (fun e => !ids.contains e.1)) id = assocGet l id := by
  induction l with
  | nil => rfl
  | cons e rest ih =>
    rw [List.filter_cons]
    by_cases he : e.1 = id
    · rw [he, h]
      simp only [Bool.not_false, if_true, assocGet, if_pos he]
    · by_cases hp : (!ids.contains e.1) = true
      · rw [if_pos hp]
        simp only [assocGet, if_neg he]
        exact ih
      · rw [if_neg hp]
        rw [ih]
        simp only [assocGet, if_neg he]

/-- C10: session-map eviction never touches the dedup key set (nor the
malformed counter) while it does remove the evicted session's
`latestTsPerSession` entry; consequently a valid record whose dedup key
is still in `seenKeys` — in particular the exact record that created a
since-evicted session — is silently discarded and the evicted session
is not restored. -/
theorem c10_eviction_dedup :
    (∀ st : ParserState,
      (evictOldestSessions st).seenKeys = st.seenKeys ∧
      (evictOldestSessions st).malformedLineCount = st.malformedLineCount ∧
      (∀ id, assocGet st.sessions id ≠ none →
        assocGet (evictOldestSessions st).sessions id = none →
        assocGet (evictOldestSessions st).latestTsPerSession id = none)) ∧
    (∀ (st : ParserState) (v : JVal), isValidEntry v = true →
      st.seenKeys.contains (dedupKeyOf v) = true →
      parseLine st (.value v) = st ∧
      assocGet (parseLine st (.value v)).sessions (sidOf v) =
        assocGet st.sessions (sidOf v)) := by
  constructor
  · intro st
    refine ⟨rfl, rfl, ?_⟩
    intro id hpre hpost
    simp only [evictOldestSessions] at hpost ⊢
    by_cases hid : ((st.sessions.insertionSort
        (fun a b => strLeB a.2.lastUpdatedAt b.2.lastUpdatedAt = true)).take
          ((st.sessions.insertionSort
            (fun a b => strLeB a.2.lastUpdatedAt b.2.lastUpdatedAt = true)).length -
            MAX_SESSIONS)).map Prod.fst |>.contains id
    · exact assocGet_filter_removed _ _ _ hid
    · rw [Bool.not_eq_true] at hid
      rw [assocGet_filter_kept _ _ _ hid] at hpost
      exact absurd hpost hpre
  · intro st v hv hc
    have h := parseLine_seen_noop st v hv hc
    exact ⟨h, by rw [h]⟩

def c10Session (i : ℕ) : AgentSession :=
  { c9Prior with sessionId := toString i, lastUpdatedAt := toString i }

/-- 101 sessions (one over `MAX_SESSIONS`); `"0"` is the
lexicographically oldest `lastUpdatedAt`. -/
def c10State : ParserState :=
  { initialParserState with
    sessions := (List.range 101).map (fun i => (toString i, c10Session i))
    latestTsPerSession := (List.range 101).map (fun i => (toString i, toString i))
    seenKeys := ["s1:t1"] }

theorem c10_eviction_dedup_witness :
    assocGet c10State.sessions "0" = some (c10Session 0) ∧
    assocGet (evictOldestSessions c10State).sessions "0" = none ∧
    (evictOldestSessions c10State).seenKeys = c10State.seenKeys ∧
    assocGet (evictOldestSessions c10State).latestTsPerSession "0" = none ∧
    isValidEntry emptyAgentsEntry = true ∧
    c10State.seenKeys.contains (dedupKeyOf emptyAgentsEntry) = true ∧
    parseLine c10State (.value emptyAgentsEntry) = c10State := by
  have hpre : assocGet c10State.sessions "0" = some (c10Session 0) := rfl
  have hpost : assocGet (evictOldestSessions c10State).sessions "0" = none := rfl
  have h1 := c10_eviction_dedup.1 c10State
  have h2 := c10_eviction_dedup.2 c10State emptyAgentsEntry (by decide) (by decide)
  exact ⟨hpre, hpost, h1.1,
    h1.2.2 "0" (by rw [hpre]; exact Option.some_ne_none _) hpost,
    by decide, by decide, h2.1⟩

/-! ## Claim C8 -/

/-- The children array the validator recurses into (empty when the
`children` field is absent or not an array — exactly the cases in which
the source skips the recursion). -/
def childrenArr (a : JVal) : List JVal :=
  match a.get "children" with
  | some (.arr l) => l
  | _ => []

/-- The agents array of an entry. -/
def agentsArr (v : JVal) : List JVal :=
  match v.get "agents" with
  | some (.arr l) => l
  | _ => []

/-- `JValChainDescend a k b`: `b` is reachable from `a` by descending
exactly `k` `children` links — i.e. `b` is nested at depth `k` below
`a`. -/
def JValChainDescend : JVal → ℕ → JVal → Prop
  | a, 0, b => a = b
  | a, k + 1, b => ∃ c ∈ childrenArr a, JValChainDescend c k b

theorem isValidAgentShape_deep (b : JVal) (d : ℕ) (h : MAX_AGENT_DEPTH < d) :
    isValidAgentShape b d = false := by
  rw [isValidAgentShape]
  simp [h]

theorem isValidAgentShape_child_false (a : JVal) (d : ℕ) (c : JVal)
    (hc : c ∈ childrenArr a) (hinv : isValidAgentShape c (d + 1) = false) :
    isValidAgentShape a d = false := by
  cases hch : a.get "children" with
  | none =>
    rw [childrenArr, hch] at hc
    simp at hc
  | some w =>
    cases w with
    | arr cs =>
      rw [childrenArr, hch] at hc
      rw [isValidAgentShape]
      by_cases hd : MAX_AGENT_DEPTH < d
      · simp [hd]
      · simp only [if_neg hd]
        split
        · rfl
        · split
          · split
            · rfl
            · split
              · split
                · rfl
                · rw [hch]
                  exact List.all_eq_false.mpr ⟨c, hc, by simp [hinv]⟩
              · rfl
          · rfl
    | null => rw [childrenArr, hch] at hc; simp at hc
    | bool b => rw [childrenArr, hch] at hc; simp at hc
    | num n => rw [childrenArr, hch] at hc; simp at hc
    | str s => rw [childrenArr, hch] at hc; simp at hc
    | obj fields => rw [childrenArr, hch] at hc; simp at hc

theorem isValidEntry_of_agent_false (v : JVal) (a : JVal)
    (ha : a ∈ agentsArr v) (hinv : isValidAgentShape a 0 = false) :
    isValidEntry v = false := by
  cases hag : v.get "agents" with
  | none =>
    rw [agentsArr, hag] at ha
    simp at ha
  | some w =>
    cases w with
    | arr l =>
      rw [agentsArr, hag] at ha
      unfold isValidEntry
      split
      · rfl
      · split
        · split
          · split
            · split
              · rfl
              · rw [hag]
                exact List.all_eq_false.mpr ⟨a, ha, by simp [hinv]⟩
            · rfl
          · rfl
        · rfl
    | null => rw [agentsArr, hag] at ha; simp at ha
    | bool b => rw [agentsArr, hag] at ha; simp at ha
    | num n => rw [agentsArr, hag] at ha; simp at ha
    | str s => rw [agentsArr, hag] at ha; simp at ha
    | obj fields => rw [agentsArr, hag] at ha; simp at ha

theorem isValidAgentShape_chain_false :
    ∀ (k : ℕ) (a b : JVal), JValChainDescend a k b →
      ∀ d : ℕ, MAX_AGENT_DEPTH < d + k → isValidAgentShape a d = false := by
  intro k
  induction k with
  | zero =>
    intro a b _ d hd
    exact isValidAgentShape_deep a d (by omega)
  | succ n ih =>
    intro a b hab d _
    obtain ⟨c, hc, hcd⟩ := hab
    exact isValidAgentShape_child_false a d c hc (ih c b hcd (d + 1) (by omega))

/-- C8: a line containing an agent nested beyond the maximum recursion
depth (an agent at depth `MAX_AGENT_DEPTH + 1 = 11` below a top-level
agent) fails structural validation as a whole: the malformed-line
counter is incremented and no other parser state changes — the deep
subtree is not silently truncated. -/
theorem c8_deep_line_rejected (st : ParserState) (v : JVal)
    (h : ∃ top ∈ agentsArr v, ∃ b, JValChainDescend top (MAX_AGENT_DEPTH + 1) b) :
    isValidEntry v = false ∧
    parseLine st (.value v) =
      { st with malformedLineCount := st.malformedLineCount + 1 } := by
  obtain ⟨top, htop, b, hchain⟩ := h
  have hshape : isValidAgentShape top 0 = false :=
    isValidAgentShape_chain_false (MAX_AGENT_DEPTH + 1) top b hchain 0 (by omega)
  exact ⟨isValidEntry_of_agent_false v top htop hshape,
    parseLine_invalid st v (isValidEntry_of_agent_false v top htop hshape)⟩

/-- A linear chain of agents, `n + 1` levels deep. -/
def nestAgent : ℕ → JVal
  | 0 => .obj [("agentId", .str "leaf"), ("context", .obj [])]
  | n + 1 => .obj [("agentId", .str "node"), ("context", .obj []),
      ("children", .arr [nestAgent n])]

def deepEntry : JVal := .obj
  [("v", .num (.num 1)), ("ts", .str "t1"), ("sessionId", .str "s1"),
   ("agents", .arr [nestAgent (MAX_AGENT_DEPTH + 1)])]

theorem nestAgent_chain : ∀ n, JValChainDescend (nestAgent n) n (nestAgent 0)
  | 0 => rfl
  | n + 1 =>
    ⟨nestAgent n,
     by rw [show childrenArr (nestAgent (n + 1)) = [nestAgent n] from rfl]
        exact List.mem_singleton.mpr rfl,
     nestAgent_chain n⟩

theorem c8_deep_line_rejected_witness :
    (∃ top ∈ agentsArr deepEntry, ∃ b, JValChainDescend top (MAX_AGENT_DEPTH + 1) b) ∧
    isValidEntry deepEntry = false ∧
    parseLine initialParserState (.value deepEntry) =
      { initialParserState with malformedLineCount := initialParserState.malformedLineCount + 1 } := by
  have hch : ∃ top ∈ agentsArr deepEntry, ∃ b,
      JValChainDescend top (MAX_AGENT_DEPTH + 1) b :=
    ⟨nestAgent (MAX_AGENT_DEPTH + 1),
     by rw [show agentsArr deepEntry = [nestAgent (MAX_AGENT_DEPTH + 1)] from rfl]
        exact List.mem_singleton.mpr rfl,
     nestAgent 0, nestAgent_chain _⟩
  have h := c8_deep_line_rejected initialParserState deepEntry hch
  exact ⟨hch, h.1, h.2⟩

/-! ## Claim C7 -/

/-- `agentChainDescend a k b`: `b` sits exactly `k` ownership links below
`a` in the built tree. -/
def agentChainDescend : Agent → ℕ → Agent → Prop
  | a, 0, b => a = b
  | a, k + 1, b => ∃ c ∈ a.children, agentChainDescend c k b

/-- The uncapped flattening (the spec's "flattened agent set" with no
depth limit), used to state that the capped `flattenAgents` drops
nothing on trees already capped by construction. -/
def flattenAllUnbounded : List Agent → List Agent
  | [] => []
  | Agent.mk i r l p cu cs rl stt la :: rest =>
      Agent.mk i r l p cu cs rl stt la ::
        (flattenAllUnbounded cs ++ flattenAllUnbounded rest)

theorem flattenAllUnbounded_cons (a : Agent) (rest : List Agent) :
    flattenAllUnbounded (a :: rest) =
      a :: (flattenAllUnbounded a.children ++ flattenAllUnbounded rest) := by
  cases a
  rw [flattenAllUnbounded]
  rfl

theorem createAgent_children (raw : JVal) (ts : String) (th : Thresholds) (depth : ℕ) :
    (createAgent raw ts th depth).children =
      if depth < MAX_AGENT_DEPTH then
        (match raw.get "children" with
          | some (.arr cs) => cs
          | _ => []).map (fun c => createAgent c ts th (depth + 1))
      else [] := by
  rw [createAgent]
  rfl

theorem createAgent_chain_bounded :
    ∀ (k : ℕ) (raw : JVal) (ts : String) (th : Thresholds) (d : ℕ) (b : Agent),
      d ≤ MAX_AGENT_DEPTH → agentChainDescend (createAgent raw ts th d) k b →
      d + k ≤ MAX_AGENT_DEPTH := by
  intro k
  induction k with
  | zero =>
    intro raw ts th d b hd _
    omega
  | succ n ih =>
    intro raw ts th d b hd hchain
    obtain ⟨c, hc, hcd⟩ := hchain
    rw [createAgent_children] at hc
    by_cases hlt : d < MAX_AGENT_DEPTH
    · rw [if_pos hlt] at hc
      obtain ⟨rc, _, rfl⟩ := List.mem_map.mp hc
      have := ih rc ts th (d + 1) b (by omega) hcd
      omega
    · rw [if_neg hlt] at hc
      simp at hc

theorem flattenAgents_eq_unbounded :
    ∀ (agents : List Agent) (depth : ℕ),
      depth ≤ MAX_AGENT_DEPTH →
      (∀ a ∈ agents, ∀ k b, agentChainDescend a k b → depth + k ≤ MAX_AGENT_DEPTH) →
      flattenAgents agents depth = flattenAllUnbounded agents := by
  intro agents depth
  induction agents, depth using flattenAgents.induct with
  | case1 depth agents h =>
    intro hd _
    exact absurd h (by omega)
  | case2 depth h =>
    intro _ _
    rw [flattenAgents, if_neg h, flattenAllUnbounded]
  | case3 depth h a rest ih1 ih2 =>
    intro hd hb
    rw [flattenAgents]
    rw [if_neg h, flattenAllUnbounded_cons]
    have hrest : flattenAgents rest depth = flattenAllUnbounded rest :=
      ih2 hd (fun x hx k b hch => hb x (List.mem_cons_of_mem a hx) k b hch)
    by_cases hne : 0 < a.children.length
    · obtain ⟨c0, hc0⟩ :=
        List.exists_mem_of_ne_nil a.children (List.length_pos.mp hne)
      have hd1 : depth + 1 ≤ MAX_AGENT_DEPTH :=
        hb a (List.mem_cons_self a rest) 1 c0 ⟨c0, hc0, rfl⟩
      have hch : flattenAgents a.children (depth + 1) = flattenAllUnbounded a.children :=
        ih1 hd1 (fun c hcmem k b hch2 => by
          have := hb a (List.mem_cons_self a rest) (k + 1) b ⟨c, hcmem, hch2⟩
          omega)
      rw [if_pos hne, hch, hrest]
      simp [List.cons_append]
    · have hcs : a.children = [] := by
        cases hc : a.children with
        | nil => rfl
        | cons x xs =>
          rw [hc] at hne
          simp at hne
      rw [if_neg hne, hcs]
      rw [show flattenAllUnbounded [] = [] from by rw [flattenAllUnbounded]]
      rw [hrest]
      simp [List.cons_append]

theorem computeSessionSummary_counts (agents : List Agent) :
    (computeSessionSummary agents).totalAgents = (flattenAgents agents 0).length ∧
    (computeSessionSummary agents).warningAgentCount =
      (flattenAgents agents 0).countP (fun a => a.riskLevel == .warning) ∧
    (computeSessionSummary agents).criticalAgentCount =
      (flattenAgents agents 0).countP (fun a => a.riskLevel == .critical) := by
  unfold computeSessionSummary
  cases hfl : flattenAgents agents 0 with
  | nil => simp [hfl]
  | cons a0 rest => simp [hfl]

theorem createSession_agents (entry : JVal) (th : Thresholds) :
    (createSession entry th).agents =
      (match entry.get "agents" with
        | some (.arr l) => l
        | _ => []).map (fun a => createAgent a (tsOf entry) th 0) := rfl

/-- C7: tree construction drops agents nested beyond
`MAX_AGENT_DEPTH` — no chain of ownership links in a built tree extends
past the cap, so an agent nested at depth 11 does not exist in (and so
cannot appear in the flattened output of) a built session; on such
trees the depth-capped `flattenAgents` equals the uncapped flattening,
i.e. construction and flattening enforce the same limit; and the
session summary is computed from exactly that flattened set (total,
warning and critical counts). -/
theorem c7_depth_cap :
    (∀ (raw : JVal) (ts : String) (th : Thresholds) (d k : ℕ) (b : Agent),
      d ≤ MAX_AGENT_DEPTH → agentChainDescend (createAgent raw ts th d) k b →
      d + k ≤ MAX_AGENT_DEPTH) ∧
    (∀ (entry : JVal) (th : Thresholds),
      flattenAgents (createSession entry th).agents 0 =
        flattenAllUnbounded (createSession entry th).agents) ∧
    (∀ agents : List Agent,
      (computeSessionSummary agents).totalAgents = (flattenAgents agents 0).length ∧
      (computeSessionSummary agents).warningAgentCount =
        (flattenAgents agents 0).countP (fun a => a.riskLevel == .warning) ∧
      (computeSessionSummary agents).criticalAgentCount =
        (flattenAgents agents 0).countP (fun a => a.riskLevel == .critical)) := by
  refine ⟨?_, ?_, computeSessionSummary_counts⟩
  · intro raw ts th d k b hd hchain
    exact createAgent_chain_bounded k raw ts th d b hd hchain
  · intro entry th
    apply flattenAgents_eq_unbounded _ 0 (by omega)
    intro a ha k b hch
    rw [createSession_agents] at ha
    obtain ⟨rc, _, rfl⟩ := List.mem_map.mp ha
    have := createAgent_chain_bounded k rc (tsOf entry) th 0 b (by omega) hch
    omega

theorem c7_depth_cap_witness :
    (0 : ℕ) ≤ MAX_AGENT_DEPTH ∧
    (0 + 0 : ℕ) ≤ MAX_AGENT_DEPTH ∧
    flattenAgents (createSession deepEntry DEFAULT_THRESHOLDS).agents 0 =
      flattenAllUnbounded (createSession deepEntry DEFAULT_THRESHOLDS).agents ∧
    (computeSessionSummary (createSession deepEntry DEFAULT_THRESHOLDS).agents).totalAgents =
      (flattenAgents (createSession deepEntry DEFAULT_THRESHOLDS).agents 0).length := by
  refine ⟨by decide, ?_, c7_depth_cap.2.1 deepEntry DEFAULT_THRESHOLDS,
    (c7_depth_cap.2.2 (createSession deepEntry DEFAULT_THRESHOLDS).agents).1⟩
  exact c7_depth_cap.1 (nestAgent 0) "t" DEFAULT_THRESHOLDS 0 0
    (createAgent (nestAgent 0) "t" DEFAULT_THRESHOLDS 0) (by decide) rfl

/-! ## Claim C3 -/

theorem assocGet_assocSet_ne {α : Type} (l : List (String × α)) (k k' : String) (v : α)
    (h : k' ≠ k) : assocGet (assocSet l k v) k' = assocGet l k' := by
  induction l with
  | nil =>
    rw [assocSet]
    simp [assocGet, Ne.symm h]
  | cons e rest ih =>
    obtain ⟨e1, e2⟩ := e
    by_cases he : e1 = k
    · rw [assocSet, if_pos he]
      rw [assocGet, assocGet]
      have : ¬ e1 = k' := by rw [he]; exact fun hh => h hh.symm
      rw [if_neg this, if_neg this]
    · rw [assocSet, if_neg he]
      rw [assocGet, assocGet]
      by_cases h1 : e1 = k'
      · rw [if_pos h1, if_pos h1]
      · rw [if_neg h1, if_neg h1]
        exact ih

theorem mem_assocSet {α : Type} (l : List (String × α)) (k : String) (v : α)
    (e : String × α) (he : e ∈ assocSet l k v) : e ∈ l ∨ e = (k, v) := by
  induction l with
  | nil =>
    rw [assocSet] at he
    simp at he
    right
    simp [he]
  | cons x rest ih =>
    obtain ⟨x1, x2⟩ := x
    by_cases hx : x1 = k
    · rw [assocSet, if_pos hx] at he
      rcases List.mem_cons.mp he with h1 | h2
      · right
        rw [h1, hx]
      · left
        exact List.mem_cons_of_mem _ h2
    · rw [assocSet, if_neg hx] at he
      rcases List.mem_cons.mp he with h1 | h2
      · left
        rw [h1]
        exact List.mem_cons_self _ _
      · rcases ih h2 with h3 | h4
        · exact Or.inl (List.mem_cons_of_mem _ h3)
        · exact Or.inr h4

theorem foldl_set_provenance (calls : List SubagentCall) :
    ∀ (m : List (String × SubagentCall)) (e : String × SubagentCall),
      e ∈ calls.foldl (fun acc c => assocSet acc c.toolCallId c) m →
      e ∈ m ∨ e.2 ∈ calls := by
  induction calls with
  | nil =>
    intro m e he
    exact Or.inl he
  | cons c rest ih =>
    intro m e he
    rw [List.foldl_cons] at he
    rcases ih _ e he with hm | hr
    · rcases mem_assocSet _ _ _ _ hm with h1 | h2
      · exact Or.inl h1
      · right
        rw [h2]
        exact List.mem_cons_self _ _
    · exact Or.inr (List.mem_cons_of_mem _ hr)

theorem assocGet_foldl_const {α : Type} (calls : List SubagentCall) :
    ∀ (m : List (String × α)) (v : α) (id : String),
      (id ∉ calls.map SubagentCall.toolCallId →
        assocGet (calls.foldl (fun acc c => assocSet acc c.toolCallId v) m) id =
          assocGet m id) ∧
      (id ∈ calls.map SubagentCall.toolCallId →
        assocGet (calls.foldl (fun acc c => assocSet acc c.toolCallId v) m) id =
          some v) := by
  induction calls with
  | nil =>
    intro m v id
    exact ⟨fun _ => rfl, fun h => absurd h (by simp)⟩
  | cons c rest ih =>
    intro m v id
    constructor
    · intro hni
      simp only [List.map_cons, List.mem_cons, not_or] at hni
      rw [List.foldl_cons]
      rw [(ih (assocSet m c.toolCallId v) v id).1 hni.2]
      exact assocGet_assocSet_ne _ _ _ _ hni.1
    · intro hmem
      rw [List.foldl_cons]
      by_cases hr : id ∈ rest.map SubagentCall.toolCallId
      · exact (ih _ v id).2 hr
      · have hid : id = c.toolCallId := by
          simp only [List.map_cons, List.mem_cons] at hmem
          rcases hmem with h1 | h2
          · exact h1
          · exact absurd h2 hr
        rw [(ih _ v id).1 hr, hid]
        exact assocGet_assocSet_self _ _ _

theorem extract_fields (items : List JVal) (ri pt : JSNum) :
    ∀ c ∈ extractSubagentCallsFromResponse items ri pt,
      c.promptTokensAtTurn = pt ∧ c.requestIndex = ri := by
  intro c hc
  rw [extractSubagentCallsFromResponse] at hc
  obtain ⟨item, _, hf⟩ := List.mem_filterMap.mp hc
  dsimp only at hf
  split at hf
  · exact absurd hf (by simp)
  · split at hf
    · exact absurd hf (by simp)
    · split at hf
      · split at hf
        · exact absurd hf (by simp)
        · split at hf
          · exact absurd hf (by simp)
          · split at hf
            · exact absurd hf (by simp)
            · rw [Option.some_inj] at hf
              rw [← hf]
              exact ⟨rfl, rfl⟩
      · exact absurd hf (by simp)

theorem jsStrictEqNum_num_of_true {x : JSNum} {p : ℚ}
    (h : jsStrictEqNum x (.num p) = true) : x = .num p := by
  cases x with
  | num a =>
    simp [jsStrictEqNum] at h
    rw [h]
  | nan => simp [jsStrictEqNum] at h
  | inf => simp [jsStrictEqNum] at h
  | ninf => simp [jsStrictEqNum] at h

/-- A turn-append (kind 2) record for turn `n` revealing `items`. -/
def kind2Record (n : ℚ) (items : List JVal) : JVal :=
  .obj [("kind", .num (.num 2)),
        ("k", .arr [.str "requests", .num (.num n), .str "response"]),
        ("v", .arr items)]

/-- A turn-result (kind 1) record for turn `n` carrying a prompt-token
total of `p`. -/
def kind1Record (n p : ℚ) : JVal :=
  .obj [("kind", .num (.num 1)),
        ("k", .arr [.str "requests", .num (.num n), .str "result"]),
        ("v", .obj [("usage", .obj [("promptTokens", .num (.num p))])])]

theorem processKind2_step (off : ℕ) (pp : String) (s0 : VscodeChatSession)
    (idx0 : List (String × JSNum)) (n : ℚ) (items : List JVal) (mt : ℚ) :
    processKind2 ⟨off, pp, some s0, idx0⟩ (kind2Record n items) mt =
      (let newCalls := extractSubagentCallsFromResponse items (.num n) (.num 0)
       if newCalls.isEmpty then ((⟨off, pp, some s0, idx0⟩ : CopilotFileState), false)
       else
         (⟨off, pp,
           some { s0 with
             subagentCalls :=
               (newCalls.foldl (fun m c => assocSet m c.toolCallId c)
                 (s0.subagentCalls.foldl (fun m c => assocSet m c.toolCallId c) [])).map
                 Prod.snd
             lastModifiedMs := mt },
           newCalls.foldl (fun m c => assocSet m c.toolCallId (.num n)) idx0⟩,
          true)) := rfl

theorem processKind1_step (off : ℕ) (pp : String) (s1 : VscodeChatSession)
    (idx1 : List (String × JSNum)) (n p : ℚ) (mt' : ℚ) :
    processKind1 ⟨off, pp, some s1, idx1⟩ (kind1Record n p) mt' =
      (⟨off, pp,
        some { s1 with
          latestPromptTokens := .num p
          promptTokenDetails := []
          lastModifiedMs := mt'
          turnCount := s1.turnCount + 1
          subagentCalls :=
            if jsGe (.num n) (.num 0) && jsGt (.num p) (.num 0) then
              s1.subagentCalls.map (fun call =>
                match assocGet idx1 call.toolCallId with
                | some callReqIdx =>
                  if jsStrictEqNum callReqIdx (.num n) &&
                      !jsStrictEqNum call.promptTokensAtTurn (.num p) then
                    { call with promptTokensAtTurn := .num p }
                  else call
                | none => call)
            else s1.subagentCalls },
        idx1⟩, true) := rfl

/-- C3: in the multi-kind reconstruction, (a) a child call introduced by
a turn-append (kind 2) record — i.e. one not present in the session
before it — enters with `promptTokensAtTurn = 0`; (b) every such call's
turn index is recorded in the per-file side index as the record's turn
index; (c) when the turn-result (kind 1) record for turn index `n ≥ 0`
with prompt total `p > 0` arrives, every child call whose side-index
entry is `n` ends with `promptTokensAtTurn = p` (and the side index
itself is unchanged by kind 1). -/
theorem c3_backfill :
    (∀ (off : ℕ) (pp : String) (s0 : VscodeChatSession)
       (idx0 : List (String × JSNum)) (items : List JVal) (n : ℚ) (mt : ℚ),
      (∀ s1, ((processKind2 ⟨off, pp, some s0, idx0⟩ (kind2Record n items) mt).1).session =
          some s1 →
        ∀ c ∈ s1.subagentCalls,
          c ∈ s0.subagentCalls ∨ c.promptTokensAtTurn = .num 0) ∧
      (∀ id ∈ (extractSubagentCallsFromResponse items (.num n) (.num 0)).map
          SubagentCall.toolCallId,
        assocGet ((processKind2 ⟨off, pp, some s0, idx0⟩
            (kind2Record n items) mt).1).subagentRequestIndex id = some (.num n))) ∧
    (∀ (off : ℕ) (pp : String) (s1 : VscodeChatSession)
       (idx1 : List (String × JSNum)) (n p : ℚ) (mt' : ℚ),
      0 ≤ n → 0 < p →
      (∀ s2, ((processKind1 ⟨off, pp, some s1, idx1⟩ (kind1Record n p) mt').1).session =
          some s2 →
        ∀ c ∈ s2.subagentCalls,
          assocGet idx1 c.toolCallId = some (.num n) →
          c.promptTokensAtTurn = .num p) ∧
      ((processKind1 ⟨off, pp, some s1, idx1⟩
          (kind1Record n p) mt').1).subagentRequestIndex = idx1) := by
  constructor
  · intro off pp s0 idx0 items n mt
    rw [processKind2_step]
    by_cases he : (extractSubagentCallsFromResponse items (.num n) (.num 0)).isEmpty
    · simp only [he, if_true]
      constructor
      · intro s1 hs1 c hc
        rw [Option.some_inj] at hs1
        rw [← hs1] at hc
        exact Or.inl hc
      · intro id hid
        rw [List.isEmpty_iff.mp he] at hid
        simp at hid
    · simp only [he, Bool.false_eq_true, if_false]
      constructor
      · intro s1 hs1 c hc
        rw [Option.some_inj] at hs1
        rw [← hs1] at hc
        simp only at hc
        obtain ⟨e, hemem, hesnd⟩ := List.mem_map.mp hc
        rcases foldl_set_provenance _ _ e hemem with hbase | hnew
        · rcases foldl_set_provenance _ _ e hbase with hnil | hold
          · simp at hnil
          · exact Or.inl (hesnd ▸ hold)
        · exact Or.inr (hesnd ▸ (extract_fields items (.num n) (.num 0) e.2 hnew).1)
      · intro id hid
        exact (assocGet_foldl_const _ idx0 (.num n) id).2 hid
  · intro off pp s1 idx1 n p mt' hn hp
    have hguard : (jsGe (.num n) (.num 0) && jsGt (.num p) (.num 0)) = true := by
      simp [jsGe, jsGt, hn, hp]
    constructor
    · intro s2 hs2 c hc hq
      rw [processKind1_step] at hs2
      simp only at hs2
      rw [Option.some_inj] at hs2
      rw [← hs2] at hc
      simp only [hguard, if_true] at hc
      obtain ⟨call, hcallmem, hfc⟩ := List.mem_map.mp hc
      cases hg : assocGet idx1 call.toolCallId with
      | none =>
        simp only [hg] at hfc
        rw [← hfc] at hq
        rw [hq] at hg
        exact absurd hg (by simp)
      | some cri =>
        simp only [hg] at hfc
        by_cases hb : (jsStrictEqNum cri (.num n) &&
            !jsStrictEqNum call.promptTokensAtTurn (.num p)) = true
        · rw [if_pos hb] at hfc
          rw [← hfc]
        · rw [if_neg hb] at hfc
          have hcid : call.toolCallId = c.toolCallId := by rw [← hfc]
          rw [← hcid] at hq
          rw [hq] at hg
          rw [Option.some_inj] at hg
          have hcri : jsStrictEqNum cri (.num n) = true := by
            rw [← hg]
            simp [jsStrictEqNum]
          have hpt : jsStrictEqNum call.promptTokensAtTurn (.num p) = true := by
            rcases Bool.eq_false_or_eq_true
              (jsStrictEqNum call.promptTokensAtTurn (.num p)) with h0 | h1
            · exact h0
            · exact absurd (by rw [hcri, h1]; rfl) hb
          rw [← hfc]
          exact jsStrictEqNum_num_of_true hpt
    · rw [processKind1_step]

def c3Item : JVal := .obj
  [("kind", .str "toolInvocationSerialized"), ("toolCallId", .str "c1"),
   ("isComplete", .bool true),
   ("toolSpecificData", .obj [("kind", .str "subagent"),
     ("description", .str "d"), ("modelName", .str "m")])]

def c3Sess0 : VscodeChatSession :=
  { sessionId := "sid", fileName := "f", creationDate := .num 0, modelName := "m",
    modelIdentifier := "mi", maxInputTokens := .num 100, maxOutputTokens := .num 50,
    latestPromptTokens := .num 0, latestCompletionTokens := .num 0,
    promptTokenDetails := [], lastModifiedMs := 0, turnCount := 0,
    subagentCalls := [] }

def c3Call : SubagentCall :=
  { toolCallId := "c1", description := "d", modelName := "m", isComplete := true,
    requestIndex := .num 3, promptTokensAtTurn := .num 0 }

def c3S1 : VscodeChatSession :=
  { c3Sess0 with subagentCalls := [c3Call], lastModifiedMs := 10 }

def c3S2 : VscodeChatSession :=
  ((processKind1 ⟨0, "", some c3S1, [("c1", JSNum.num 3)]⟩
    (kind1Record 3 777) 11).1).session.getD c3Sess0

theorem c3_backfill_witness :
    ((processKind2 ⟨0, "", some c3Sess0, []⟩ (kind2Record 3 [c3Item]) 10).1).session =
      some c3S1 ∧
    (∀ c ∈ c3S1.subagentCalls,
      c ∈ c3Sess0.subagentCalls ∨ c.promptTokensAtTurn = .num 0) ∧
    assocGet ((processKind2 ⟨0, "", some c3Sess0, []⟩
      (kind2Record 3 [c3Item]) 10).1).subagentRequestIndex "c1" = some (.num 3) ∧
    (∀ c ∈ c3S2.subagentCalls,
      assocGet [("c1", JSNum.num 3)] c.toolCallId = some (.num 3) →
      c.promptTokensAtTurn = .num 777) ∧
    c3S2.subagentCalls.map SubagentCall.promptTokensAtTurn = [.num 777] := by
  have hA := c3_backfill.1 0 "" c3Sess0 [] [c3Item] 3 10
  have h1 := hA.1 c3S1 rfl
  have h2 := hA.2 "c1" (by decide)
  have hB := c3_backfill.2 0 "" c3S1 [("c1", JSNum.num 3)] 3 777 11
    (by norm_num) (by norm_num)
  have h3 := hB.1 c3S2 rfl
  exact ⟨rfl, h1, h2, h3, by decide⟩
